import Mathlib

/-!
Shallow embedding of `tools/train_utils/train_utils.py` (DSVT training-loop
driver) and proofs about it.

The file models, from the source:
* the checkpoint subsystem (`model_state_to_cpu`, `checkpoint_state`,
  `save_checkpoint`);
* the epoch driver `train_one_epoch` (iteration loop, dataloader wraparound,
  accumulated-iteration counter, rolling meters, verbose log emission,
  time-interval "latest" checkpoint saves);
* the run driver `train_model`'s end-of-epoch checkpoint retention sweep and
  its one-shot disable-augmentation hook.

External collaborators (the model, loss function, optimizer, lr scheduler,
wandb, tensorboard, tqdm clocks) are modelled as opaque inputs: their
observable outputs (loss value, per-iteration timings, elapsed wall-clock
readings, presence of head-loss keys in `tb_dict`) enter each iteration
through an `IterObs` record.
-/

namespace TrainUtils

/-- Modelled from the spec: the rolling statistic ("meter",
`common_utils.AverageMeter` from `pcdet`, which is not part of this repository
snapshot).  Per §3 of the spec it "tracks a scalar's most recent value and
running average over an unbounded or periodically-reset window"; `reset`
returns it to the empty state. -/
structure AverageMeter where
  val : ℚ
  sum : ℚ
  count : ℕ
deriving Repr, DecidableEq

namespace AverageMeter

/-- Modelled from the spec: the empty (just-reset) meter. -/
def empty : AverageMeter := ⟨0, 0, 0⟩

/-- Modelled from the spec: record one more value. -/
def update (m : AverageMeter) (v : ℚ) : AverageMeter :=
  ⟨v, m.sum + v, m.count + 1⟩

/-- Modelled from the spec: the running average of the values recorded since
the last reset (0 on an empty meter). -/
def avg (m : AverageMeter) : ℚ :=
  if m.count = 0 then 0 else m.sum / m.count

/-- Modelled from the spec: reset the meter to empty. -/
def reset (_ : AverageMeter) : AverageMeter := empty

end AverageMeter

/-! ## Tensors, models and the checkpoint subsystem (lines 270-310) -/

/-- The device a tensor lives on. -/
inductive Device
  | cpu
  | cuda (idx : ℕ)
deriving Repr, DecidableEq

/-- An abstract tensor: a device plus opaque contents. -/
structure Tensor where
  device : Device
  data : ℤ
deriving Repr, DecidableEq

/-- The effect of `val.cpu()`: the same tensor moved to host memory. -/
def Tensor.cpu (t : Tensor) : Tensor := { t with device := Device.cpu }

/-- A `state_dict`: an ordered mapping from parameter names to tensors. -/
abbrev StateDict := List (String × Tensor)

/-- Embeds `model_state_to_cpu` (train_utils.py lines 270-274): copy the ordered
dict, moving every tensor to host memory. -/
def model_state_to_cpu (model_state : StateDict) : StateDict :=
  model_state.map (fun kv => (kv.1, kv.2.cpu))

/-- A model as seen by `checkpoint_state`: either a plain module, or a
`torch.nn.parallel.DistributedDataParallel` wrapper whose inner module
(`model.module`) has the given state dict. -/
inductive TorchModel
  | plain (state_dict : StateDict)
  | ddp (module_state_dict : StateDict)
deriving Repr, DecidableEq

/-- The checkpoint record built by `checkpoint_state` (line 293):
`{'epoch': epoch, 'it': it, 'model_state': ..., 'optimizer_state': ...,
'version': ...}`.  `σ` is the opaque type of `optimizer.state_dict()`. -/
structure CheckpointRecord (σ : Type) where
  epoch : ℕ
  it : ℕ
  model_state : Option StateDict
  optimizer_state : Option σ
  version : String
deriving Repr, DecidableEq

/-- Embeds `checkpoint_state` (lines 277-293).  `pcdet_version` is `some v` when
`import pcdet` succeeds with `pcdet.__version__ = v`, else `none`.  The
optimizer collaborator is represented by its opaque `state_dict()` value, so
`optimizer.state_dict() if optimizer is not None else None` is the `Option`
map of the identity. -/
def checkpoint_state {σ : Type} (pcdet_version : Option String)
    (model : Option TorchModel) (optimizer : Option σ) (epoch it : ℕ) :
    CheckpointRecord σ :=
  let optim_state : Option σ := optimizer
  let model_state : Option StateDict :=
    match model with
    | some (TorchModel.ddp sd) => some (model_state_to_cpu sd)
    | some (TorchModel.plain sd) => some sd
    | none => none
  let version : String :=
    match pcdet_version with
    | some v => "pcdet+" ++ v
    | none => "none"
  ⟨epoch, it, model_state, optim_state, version⟩

/-- The observable effect of `save_checkpoint` (lines 296-310): one
`torch.save` call, to `'{}.pth'.format(filename)`, with
`_use_new_zipfile_serialization=False` (the legacy, non-zipped format) passed
exactly when `torch.__version__ >= '1.4'`.  The `if False and ...` optimizer
sidecar branch (lines 297-304) is dead code and has no effect. -/
structure SaveCall (σ : Type) where
  filename : String
  legacyFormat : Bool
  state : CheckpointRecord σ
deriving Repr, DecidableEq

/-- Embeds `save_checkpoint` (lines 296-310), parameterised by the ambient
`torch.__version__` string (Python compares version strings
lexicographically, as does `≤` on `String`). -/
def save_checkpoint {σ : Type} (torchVersion : String)
    (state : CheckpointRecord σ) (filename : String) : SaveCall σ :=
  { filename := filename ++ ".pth"
    legacyFormat := decide ("1.4" ≤ torchVersion)
    state := state }

/-- Every tensor of a state dict lives on the CPU. -/
def allCpu (sd : StateDict) : Bool :=
  sd.all (fun kv => kv.2.device == Device.cpu)

/-! ## The epoch driver `train_one_epoch` (lines 22-178)

`B` is the type of batches yielded by the dataloader.  An iterator over the
dataloader is the list of batches it has yet to yield; `iter(train_loader)`
produces the full list `loader`. -/

/-- Per-iteration observations coming from the external collaborators: the
loss returned by `model_func`, which `tb_dict` head-loss keys are present and
their values, the worker-averaged timings from `commu_utils`, and the tqdm
wall-clock readings (`pbar.format_dict['elapsed']` is read twice per
iteration: once in the logging block at line 131, once in the checkpoint
block at line 167). -/
structure IterObs where
  loss : ℚ
  hasCenterHeadLosses : Bool
  hmLoss : ℚ
  locLoss : ℚ
  hasRcnnLosses : Bool
  rcnnLossCls : ℚ
  rcnnLossReg : ℚ
  avgDataTime : ℚ
  avgForwardTime : ℚ
  avgBatchTime : ℚ
  pbarElapsedAtLog : ℚ
  pbarElapsedAtCkpt : ℚ
  tbarElapsed : ℚ
deriving Repr, DecidableEq

/-- The arguments of `train_one_epoch` that the modelled behaviour depends
on. -/
structure EpochCfg (B : Type) where
  loader : List B
  totalIt : ℕ
  rank : ℕ
  useLoggerToRecord : Bool
  loggerIterInterval : ℕ
  curEpoch : ℕ
  totalEpochs : ℕ
  ckptSaveTimeInterval : ℚ
deriving Repr

/-- The fields of one emitted aggregated log line (lines 130-143) that the
spec constrains. -/
structure LogRecord where
  curIt : ℕ
  accIter : ℕ
  secondEachIter : ℚ
  remainingSecondEachEpoch : ℚ
  remainingSecondAll : ℚ
deriving Repr, DecidableEq

/-- The mutable state of one `train_one_epoch` call: the global step counter,
the dataloader iterator, the saved-checkpoint counter `ckpt_save_cnt`, the
eight rolling meters created at lines 34-42, plus event histories (emitted
log lines, `latest_model` checkpoint overwrites recorded as the
`(cur_epoch, accumulated_iter)` pair passed to `checkpoint_state`, and
`'new iters'` iterator restarts). -/
structure EpochState (B : Type) where
  accIter : ℕ
  dlIter : List B
  ckptSaveCnt : ℕ
  dataTime : AverageMeter
  batchTime : AverageMeter
  forwardTime : AverageMeter
  lossDisp : AverageMeter
  hmLossDisp : AverageMeter
  locLossDisp : AverageMeter
  rcnnClsLossDisp : AverageMeter
  rcnnRegLossDisp : AverageMeter
  logs : List LogRecord
  latestCkptSaves : List (ℕ × ℕ)
  iterRestarts : ℕ
deriving Repr

/-- Lines 53-58: pull the next batch; on `StopIteration`, reinstantiate the
iterator from the loader and pull again (printing `'new iters'`, flagged by
the returned Bool).  A second `StopIteration` (empty loader) propagates:
`none`. -/
def nextBatch {B : Type} (loader dlIter : List B) : Option (B × List B × Bool) :=
  match dlIter with
  | b :: rest => some (b, rest, false)
  | [] =>
    match loader with
    | b :: rest => some (b, rest, true)
    | [] => none

/-- Line 129: the verbose-log emission condition,
`(accumulated_iter % logger_iter_interval == 0 and cur_it != start_it) or
cur_it + 1 == total_it_each_epoch`, where `accIter` is the counter already
incremented at line 91. -/
def emitCond {B : Type} (cfg : EpochCfg B) (startIt accIter curIt : ℕ) : Bool :=
  ((accIter % cfg.loggerIterInterval == 0) && (curIt != startIt))
    || (curIt + 1 == cfg.totalIt)

/-- Lines 106-121 (rank 0 only): update the timing and loss meters, and the
head-loss meters when the corresponding `tb_dict` keys are present. -/
def updateMeters {B : Type} (obs : IterObs) (s : EpochState B) : EpochState B :=
  let s :=
    { s with
      dataTime := s.dataTime.update obs.avgDataTime
      forwardTime := s.forwardTime.update obs.avgForwardTime
      batchTime := s.batchTime.update obs.avgBatchTime
      lossDisp := s.lossDisp.update obs.loss }
  let s :=
    if obs.hasCenterHeadLosses then
      { s with
        hmLossDisp := s.hmLossDisp.update obs.hmLoss
        locLossDisp := s.locLossDisp.update obs.locLoss }
    else s
  if obs.hasRcnnLosses then
    { s with
      rcnnClsLossDisp := s.rcnnClsLossDisp.update obs.rcnnLossCls
      rcnnRegLossDisp := s.rcnnRegLossDisp.update obs.rcnnLossReg }
  else s

/-- Lines 128-158 (rank 0 only): in verbose-logger mode, on the emission
cadence, compute the time estimates, emit one aggregated log line and reset
the five loss-display meters (lines 149-153; the timing meters are not
reset).  Outside verbose mode only the progress bars are touched (no modelled
state). -/
def maybeEmitLog {B : Type} (cfg : EpochCfg B) (startIt curIt : ℕ)
    (obs : IterObs) (s : EpochState B) : EpochState B :=
  if cfg.useLoggerToRecord then
    if emitCond cfg startIt s.accIter curIt then
      let secondEachIter : ℚ :=
        obs.pbarElapsedAtLog / max ((curIt : ℚ) - (startIt : ℚ) + 1) 1
      let r : LogRecord :=
        { curIt := curIt
          accIter := s.accIter
          secondEachIter := secondEachIter
          remainingSecondEachEpoch := secondEachIter * ((cfg.totalIt : ℚ) - (curIt : ℚ))
          remainingSecondAll :=
            secondEachIter *
              (((cfg.totalEpochs : ℚ) - (cfg.curEpoch : ℚ)) * (cfg.totalIt : ℚ) - (curIt : ℚ)) }
      { s with
        logs := s.logs ++ [r]
        lossDisp := s.lossDisp.reset
        hmLossDisp := s.hmLossDisp.reset
        locLossDisp := s.locLossDisp.reset
        rcnnClsLossDisp := s.rcnnClsLossDisp.reset
        rcnnRegLossDisp := s.rcnnRegLossDisp.reset }
    else s
  else s

/-- Lines 166-174 (rank 0 only): when
`time_past_this_epoch // ckpt_save_time_interval >= ckpt_save_cnt`, write a
checkpoint to the fixed `latest_model` slot (recording the
`(cur_epoch, accumulated_iter)` passed to `checkpoint_state`) and increment
`ckpt_save_cnt`. -/
def maybeSaveLatest {B : Type} (cfg : EpochCfg B) (obs : IterObs)
    (s : EpochState B) : EpochState B :=
  if (s.ckptSaveCnt : ℤ) ≤ ⌊obs.pbarElapsedAtCkpt / cfg.ckptSaveTimeInterval⌋ then
    { s with
      latestCkptSaves := s.latestCkptSaves ++ [(cfg.curEpoch, s.accIter)]
      ckptSaveCnt := s.ckptSaveCnt + 1 }
  else s

/-- One iteration of the `for cur_it in range(start_it, total_it_each_epoch)`
loop body (lines 52-174).  The lr-scheduler step, `model_func` call,
backward pass, gradient clipping and optimizer step (lines 60-96) act only on
external collaborators; their observable outputs enter through `obs`.
Returns `none` when a fresh iterator is still empty (`StopIteration`
propagates). -/
def epochStep {B : Type} (cfg : EpochCfg B) (startIt : ℕ) (obs : IterObs)
    (curIt : ℕ) (s : EpochState B) : Option (EpochState B) :=
  match nextBatch cfg.loader s.dlIter with
  | none => none
  | some (_batch, dlIter', restarted) =>
    let s :=
      { s with
        accIter := s.accIter + 1
        dlIter := dlIter'
        iterRestarts := s.iterRestarts + (if restarted then 1 else 0) }
    if cfg.rank = 0 then
      some (maybeSaveLatest cfg obs (maybeEmitLog cfg startIt curIt obs (updateMeters obs s)))
    else
      some s

/-- Run the loop body over a list of iteration indices. -/
def runSteps {B : Type} (cfg : EpochCfg B) (startIt : ℕ) (obs : ℕ → IterObs) :
    List ℕ → EpochState B → Option (EpochState B)
  | [], s => some s
  | i :: rest, s =>
    match epochStep cfg startIt (obs i) i s with
    | none => none
    | some s' => runSteps cfg startIt obs rest s'

/-- The state at entry of the loop: line 29 (`ckpt_save_cnt = 1`), the empty
meters of lines 34-42, no events yet. -/
def initState {B : Type} (accIter0 : ℕ) (dlIter : List B) : EpochState B :=
  { accIter := accIter0
    dlIter := dlIter
    ckptSaveCnt := 1
    dataTime := AverageMeter.empty
    batchTime := AverageMeter.empty
    forwardTime := AverageMeter.empty
    lossDisp := AverageMeter.empty
    hmLossDisp := AverageMeter.empty
    locLossDisp := AverageMeter.empty
    rcnnClsLossDisp := AverageMeter.empty
    rcnnRegLossDisp := AverageMeter.empty
    logs := []
    latestCkptSaves := []
    iterRestarts := 0 }

/-- The iteration indices of `for cur_it in range(start_it,
total_it_each_epoch)`. -/
def epochIterIdxs (totalIt startIt : ℕ) : List ℕ :=
  List.range' startIt (totalIt - startIt)

/-- Embeds `train_one_epoch` (lines 22-178): reinstantiate the iterator when the
epoch length equals the loader length (lines 26-27), compute
`start_it = accumulated_iter % total_it_each_epoch` (line 30; a
`ZeroDivisionError` propagates when `total_it_each_epoch == 0`, modelled as
`none`), run the loop, and return the updated `accumulated_iter`
(line 178). -/
def train_one_epoch {B : Type} (cfg : EpochCfg B) (obs : ℕ → IterObs)
    (accIter0 : ℕ) (dlIter0 : List B) : Option (ℕ × EpochState B) :=
  let dlIter := if cfg.totalIt = cfg.loader.length then cfg.loader else dlIter0
  if cfg.totalIt = 0 then none
  else
    let startIt := accIter0 % cfg.totalIt
    (runSteps cfg startIt obs (epochIterIdxs cfg.totalIt startIt)
        (initState accIter0 dlIter)).map (fun s => (s.accIter, s))

/-! ## The run driver `train_model`: checkpoint retention (lines 253-267) -/

/-- An epoch-numbered checkpoint file `checkpoint_epoch_<epochNum>.pth` on
disk, with its modification time. -/
structure CkptFile where
  epochNum : ℕ
  mtime : ℕ
deriving Repr, DecidableEq

/-- The mtime order used by `ckpt_list.sort(key=os.path.getmtime)`. -/
def mtimeLE (x y : CkptFile) : Prop := x.mtime ≤ y.mtime

instance : DecidableRel mtimeLE := fun x y => Nat.decLe x.mtime y.mtime

instance : IsTotal CkptFile mtimeLE := ⟨fun x y => Nat.le_total x.mtime y.mtime⟩

instance : IsTrans CkptFile mtimeLE := ⟨fun _ _ _ => Nat.le_trans⟩

/-- The end-of-epoch save/prune of `train_model` (lines 253-267): when
`(cur_epoch + 1) % ckpt_save_interval == 0` and on the lead worker, sort the
existing epoch-numbered checkpoints by modification time (a stable sort, like
Python's `list.sort`), delete the oldest `len - max_ckpt_save_num + 1` of
them when `len >= max_ckpt_save_num`, and write
`checkpoint_epoch_<cur_epoch+1>` with the given modification time.
Otherwise the files are untouched. -/
def endOfEpochSave (rank ckptSaveInterval maxCkptSaveNum : ℕ)
    (files : List CkptFile) (curEpoch newMtime : ℕ) : List CkptFile :=
  let trainedEpoch := curEpoch + 1
  if trainedEpoch % ckptSaveInterval = 0 ∧ rank = 0 then
    let ckptList := List.insertionSort mtimeLE files
    let pruned :=
      if maxCkptSaveNum ≤ ckptList.length then
        ckptList.drop (ckptList.length - maxCkptSaveNum + 1)
      else ckptList
    pruned ++ [⟨trainedEpoch, newMtime⟩]
  else files

/-- The retention sweep over a whole run: one `endOfEpochSave` per epoch
boundary, starting from an empty checkpoint directory.  Each event is a
`(cur_epoch, mtime-of-the-new-file)` pair. -/
def runEpochSaves (rank ckptSaveInterval maxCkptSaveNum : ℕ)
    (events : List (ℕ × ℕ)) : List CkptFile :=
  events.foldl
    (fun fs ev => endOfEpochSave rank ckptSaveInterval maxCkptSaveNum fs ev.1 ev.2) []

/-! ## The run driver `train_model`: the one-shot disable-augmentation hook
(lines 196 and 215-232) -/

/-- The `cfg.HOOK.DisableAugmentationHook` configuration. -/
structure HookCfg where
  numLastEpochs : ℕ
deriving Repr, DecidableEq

/-- The run-level state the hook touches: the one-shot
`augment_disable_flag` (line 196) and the history of epochs at which
`dataloader_iter._dataset.data_augmentor` was replaced (line 231). -/
structure RunAugState where
  augmentDisableFlag : Bool
  augReplacedAtEpochs : List ℕ
deriving Repr, DecidableEq

/-- Lines 215-232, executed once per epoch: when a
`DisableAugmentationHook` is configured,
`(total_epochs - num_last_epochs) <= cur_epoch` and the flag is not yet set,
replace the dataloader's augmentation configuration and set the flag. -/
def disableAugHookStep (hook : Option HookCfg) (totalEpochs curEpoch : ℕ)
    (s : RunAugState) : RunAugState :=
  match hook with
  | none => s
  | some h =>
    if totalEpochs - h.numLastEpochs ≤ curEpoch ∧ s.augmentDisableFlag = false then
      { augmentDisableFlag := true
        augReplacedAtEpochs := s.augReplacedAtEpochs ++ [curEpoch] }
    else s

/-- The hook over the whole run: `augment_disable_flag = False` before the
epoch loop, then one `disableAugHookStep` per epoch of
`range(start_epoch, total_epochs)`. -/
def runDisableAugHook (hook : Option HookCfg) (totalEpochs startEpoch : ℕ) :
    RunAugState :=
  (List.range' startEpoch (totalEpochs - startEpoch)).foldl
    (fun s e => disableAugHookStep hook totalEpochs e s) ⟨false, []⟩

/-! ## Derived notions used by the statements -/

/-- The iteration at hand emits a verbose aggregated log line: rank 0,
verbose-logger mode, and the line-129 cadence condition, evaluated at the
already-incremented counter `accIterNew`. -/
def stepEmitsB {B : Type} (cfg : EpochCfg B) (startIt accIterNew curIt : ℕ) : Bool :=
  (cfg.rank == 0) && cfg.useLoggerToRecord && emitCond cfg startIt accIterNew curIt

/-- How many of the iterations `idxs`, started with counter value `acc`,
emit a verbose log line. -/
def countEmits {B : Type} (cfg : EpochCfg B) (startIt : ℕ) :
    ℕ → List ℕ → ℕ
  | _, [] => 0
  | acc, i :: rest =>
    (if stepEmitsB cfg startIt (acc + 1) i then 1 else 0)
      + countEmits cfg startIt (acc + 1) rest

/-- The spec's formula for the whole-run remaining-time estimate holds of a
log record (relative to `cfg`'s epoch geometry). -/
def goodLog {B : Type} (cfg : EpochCfg B) (r : LogRecord) : Prop :=
  r.remainingSecondAll =
    r.secondEachIter *
      (((cfg.totalEpochs : ℚ) - (cfg.curEpoch : ℚ)) * (cfg.totalIt : ℚ) - (r.curIt : ℚ))

/-- All eight rolling meters are empty. -/
def allMetersEmpty {B : Type} (s : EpochState B) : Prop :=
  s.dataTime = AverageMeter.empty ∧ s.batchTime = AverageMeter.empty ∧
  s.forwardTime = AverageMeter.empty ∧ s.lossDisp = AverageMeter.empty ∧
  s.hmLossDisp = AverageMeter.empty ∧ s.locLossDisp = AverageMeter.empty ∧
  s.rcnnClsLossDisp = AverageMeter.empty ∧ s.rcnnRegLossDisp = AverageMeter.empty

/-! ## Helper lemmas: what each phase of the loop body leaves untouched -/

section PhaseLemmas

variable {B : Type} (cfg : EpochCfg B) (obs : IterObs) (startIt curIt : ℕ)
variable (s : EpochState B)

theorem updateMeters_accIter : (updateMeters obs s).accIter = s.accIter := by
  simp only [updateMeters]; split_ifs <;> rfl

theorem updateMeters_dlIter : (updateMeters obs s).dlIter = s.dlIter := by
  simp only [updateMeters]; split_ifs <;> rfl

theorem updateMeters_ckptSaveCnt :
    (updateMeters obs s).ckptSaveCnt = s.ckptSaveCnt := by
  simp only [updateMeters]; split_ifs <;> rfl

theorem updateMeters_logs : (updateMeters obs s).logs = s.logs := by
  simp only [updateMeters]; split_ifs <;> rfl

theorem updateMeters_latestCkptSaves :
    (updateMeters obs s).latestCkptSaves = s.latestCkptSaves := by
  simp only [updateMeters]; split_ifs <;> rfl

theorem maybeEmitLog_accIter :
    (maybeEmitLog cfg startIt curIt obs s).accIter = s.accIter := by
  simp only [maybeEmitLog]; split_ifs <;> rfl

theorem maybeEmitLog_dlIter :
    (maybeEmitLog cfg startIt curIt obs s).dlIter = s.dlIter := by
  simp only [maybeEmitLog]; split_ifs <;> rfl

theorem maybeEmitLog_ckptSaveCnt :
    (maybeEmitLog cfg startIt curIt obs s).ckptSaveCnt = s.ckptSaveCnt := by
  simp only [maybeEmitLog]; split_ifs <;> rfl

theorem maybeEmitLog_latestCkptSaves :
    (maybeEmitLog cfg startIt curIt obs s).latestCkptSaves = s.latestCkptSaves := by
  simp only [maybeEmitLog]; split_ifs <;> rfl

theorem maybeEmitLog_logs_length :
    (maybeEmitLog cfg startIt curIt obs s).logs.length =
      s.logs.length +
        (if cfg.useLoggerToRecord && emitCond cfg startIt s.accIter curIt then 1 else 0) := by
  simp only [maybeEmitLog]
  split_ifs with h1 h2 <;> simp_all

theorem maybeSaveLatest_accIter :
    (maybeSaveLatest cfg obs s).accIter = s.accIter := by
  simp only [maybeSaveLatest]; split_ifs <;> rfl

theorem maybeSaveLatest_dlIter :
    (maybeSaveLatest cfg obs s).dlIter = s.dlIter := by
  simp only [maybeSaveLatest]; split_ifs <;> rfl

theorem maybeSaveLatest_logs :
    (maybeSaveLatest cfg obs s).logs = s.logs := by
  simp only [maybeSaveLatest]; split_ifs <;> rfl

theorem maybeSaveLatest_lossDisp :
    (maybeSaveLatest cfg obs s).lossDisp = s.lossDisp := by
  simp only [maybeSaveLatest]; split_ifs <;> rfl

theorem maybeSaveLatest_hmLossDisp :
    (maybeSaveLatest cfg obs s).hmLossDisp = s.hmLossDisp := by
  simp only [maybeSaveLatest]; split_ifs <;> rfl

theorem maybeSaveLatest_locLossDisp :
    (maybeSaveLatest cfg obs s).locLossDisp = s.locLossDisp := by
  simp only [maybeSaveLatest]; split_ifs <;> rfl

theorem maybeSaveLatest_rcnnClsLossDisp :
    (maybeSaveLatest cfg obs s).rcnnClsLossDisp = s.rcnnClsLossDisp := by
  simp only [maybeSaveLatest]; split_ifs <;> rfl

theorem maybeSaveLatest_rcnnRegLossDisp :
    (maybeSaveLatest cfg obs s).rcnnRegLossDisp = s.rcnnRegLossDisp := by
  simp only [maybeSaveLatest]; split_ifs <;> rfl

theorem maybeSaveLatest_ckptSaveCnt :
    (maybeSaveLatest cfg obs s).ckptSaveCnt =
      if (s.ckptSaveCnt : ℤ) ≤ ⌊obs.pbarElapsedAtCkpt / cfg.ckptSaveTimeInterval⌋
      then s.ckptSaveCnt + 1 else s.ckptSaveCnt := by
  simp only [maybeSaveLatest]; split_ifs <;> rfl

theorem maybeSaveLatest_latestCkptSaves_length :
    (maybeSaveLatest cfg obs s).latestCkptSaves.length =
      if (s.ckptSaveCnt : ℤ) ≤ ⌊obs.pbarElapsedAtCkpt / cfg.ckptSaveTimeInterval⌋
      then s.latestCkptSaves.length + 1 else s.latestCkptSaves.length := by
  simp only [maybeSaveLatest]; split_ifs <;> simp

theorem maybeEmitLog_goodLogs (hs : ∀ r ∈ s.logs, goodLog cfg r) :
    ∀ r ∈ (maybeEmitLog cfg startIt curIt obs s).logs, goodLog cfg r := by
  simp only [maybeEmitLog]
  split_ifs with h1 h2
  · intro r hr
    simp only [List.mem_append, List.mem_singleton] at hr
    rcases hr with hr | hr
    · exact hs r hr
    · subst hr; rfl
  · exact hs
  · exact hs

theorem maybeEmitLog_lossMeters_of_emit (h1 : cfg.useLoggerToRecord = true)
    (h2 : emitCond cfg startIt s.accIter curIt = true) :
    (maybeEmitLog cfg startIt curIt obs s).lossDisp = AverageMeter.empty ∧
    (maybeEmitLog cfg startIt curIt obs s).hmLossDisp = AverageMeter.empty ∧
    (maybeEmitLog cfg startIt curIt obs s).locLossDisp = AverageMeter.empty ∧
    (maybeEmitLog cfg startIt curIt obs s).rcnnClsLossDisp = AverageMeter.empty ∧
    (maybeEmitLog cfg startIt curIt obs s).rcnnRegLossDisp = AverageMeter.empty := by
  simp only [maybeEmitLog, h1, if_true, h2]
  exact ⟨rfl, rfl, rfl, rfl, rfl⟩

end PhaseLemmas

/-! ## Helper lemmas about one loop iteration -/

section StepLemmas

variable {B : Type} {cfg : EpochCfg B} {obs : IterObs} {startIt curIt : ℕ}
variable {s s' : EpochState B}

theorem nextBatch_isSome (h : cfg.loader ≠ []) (it : List B) :
    (nextBatch cfg.loader it).isSome := by
  cases it with
  | cons b rest => rfl
  | nil =>
    cases hl : cfg.loader with
    | nil => exact absurd hl h
    | cons b rest => simp [nextBatch, hl]

theorem epochStep_isSome (h : cfg.loader ≠ []) :
    (epochStep cfg startIt obs curIt s).isSome := by
  unfold epochStep
  cases hnb : nextBatch cfg.loader s.dlIter with
  | none => exact absurd (hnb ▸ nextBatch_isSome h s.dlIter) (by simp)
  | some v =>
    obtain ⟨b, dl', rst⟩ := v
    split_ifs <;> rfl

theorem epochStep_accIter (h : epochStep cfg startIt obs curIt s = some s') :
    s'.accIter = s.accIter + 1 := by
  unfold epochStep at h
  cases hnb : nextBatch cfg.loader s.dlIter with
  | none => rw [hnb] at h; exact absurd h (by simp)
  | some v =>
    obtain ⟨b, dl', rst⟩ := v
    rw [hnb] at h
    dsimp only at h
    by_cases hr : cfg.rank = 0
    · rw [if_pos hr] at h
      rw [← Option.some.inj h, maybeSaveLatest_accIter, maybeEmitLog_accIter,
        updateMeters_accIter]
    · rw [if_neg hr] at h
      rw [← Option.some.inj h]

theorem epochStep_logs_length (h : epochStep cfg startIt obs curIt s = some s') :
    s'.logs.length =
      s.logs.length +
        (if stepEmitsB cfg startIt (s.accIter + 1) curIt then 1 else 0) := by
  unfold epochStep at h
  cases hnb : nextBatch cfg.loader s.dlIter with
  | none => rw [hnb] at h; exact absurd h (by simp)
  | some v =>
    obtain ⟨b, dl', rst⟩ := v
    rw [hnb] at h
    dsimp only at h
    by_cases hr : cfg.rank = 0
    · rw [if_pos hr] at h
      rw [← Option.some.inj h]
      rw [maybeSaveLatest_logs, maybeEmitLog_logs_length, updateMeters_logs,
        updateMeters_accIter]
      simp [stepEmitsB, hr]
    · rw [if_neg hr] at h
      rw [← Option.some.inj h]
      simp [stepEmitsB, hr]

theorem epochStep_goodLogs (h : epochStep cfg startIt obs curIt s = some s')
    (hs : ∀ r ∈ s.logs, goodLog cfg r) : ∀ r ∈ s'.logs, goodLog cfg r := by
  unfold epochStep at h
  cases hnb : nextBatch cfg.loader s.dlIter with
  | none => rw [hnb] at h; exact absurd h (by simp)
  | some v =>
    obtain ⟨b, dl', rst⟩ := v
    rw [hnb] at h
    dsimp only at h
    by_cases hr : cfg.rank = 0
    · rw [if_pos hr] at h
      rw [← Option.some.inj h, maybeSaveLatest_logs]
      apply maybeEmitLog_goodLogs
      rw [updateMeters_logs]
      exact hs
    · rw [if_neg hr] at h
      rw [← Option.some.inj h]
      exact hs

theorem epochStep_lossMeters_of_emit
    (h : epochStep cfg startIt obs curIt s = some s')
    (he : stepEmitsB cfg startIt (s.accIter + 1) curIt = true) :
    s'.lossDisp = AverageMeter.empty ∧ s'.hmLossDisp = AverageMeter.empty ∧
    s'.locLossDisp = AverageMeter.empty ∧ s'.rcnnClsLossDisp = AverageMeter.empty ∧
    s'.rcnnRegLossDisp = AverageMeter.empty := by
  simp only [stepEmitsB, Bool.and_eq_true, beq_iff_eq] at he
  obtain ⟨⟨hr, hl⟩, hc⟩ := he
  unfold epochStep at h
  cases hnb : nextBatch cfg.loader s.dlIter with
  | none => rw [hnb] at h; exact absurd h (by simp)
  | some v =>
    obtain ⟨b, dl', rst⟩ := v
    rw [hnb] at h
    dsimp only at h
    rw [if_pos hr] at h
    rw [← Option.some.inj h, maybeSaveLatest_lossDisp, maybeSaveLatest_hmLossDisp,
      maybeSaveLatest_locLossDisp, maybeSaveLatest_rcnnClsLossDisp,
      maybeSaveLatest_rcnnRegLossDisp]
    apply maybeEmitLog_lossMeters_of_emit cfg obs startIt curIt _ hl
    rw [updateMeters_accIter]
    exact hc

/-- On the lead worker, one iteration saves exactly one `latest_model`
checkpoint and bumps `ckpt_save_cnt` when
`elapsed // interval >= ckpt_save_cnt`, and leaves both untouched
otherwise. -/
theorem epochStep_saves (h : epochStep cfg startIt obs curIt s = some s')
    (hr : cfg.rank = 0) :
    (s'.ckptSaveCnt, s'.latestCkptSaves.length) =
      if (s.ckptSaveCnt : ℤ) ≤ ⌊obs.pbarElapsedAtCkpt / cfg.ckptSaveTimeInterval⌋
      then (s.ckptSaveCnt + 1, s.latestCkptSaves.length + 1)
      else (s.ckptSaveCnt, s.latestCkptSaves.length) := by
  unfold epochStep at h
  cases hnb : nextBatch cfg.loader s.dlIter with
  | none => rw [hnb] at h; exact absurd h (by simp)
  | some v =>
    obtain ⟨b, dl', rst⟩ := v
    rw [hnb] at h
    dsimp only at h
    rw [if_pos hr] at h
    rw [← Option.some.inj h, maybeSaveLatest_ckptSaveCnt,
      maybeSaveLatest_latestCkptSaves_length, maybeEmitLog_ckptSaveCnt,
      maybeEmitLog_latestCkptSaves, updateMeters_ckptSaveCnt,
      updateMeters_latestCkptSaves]
    split_ifs <;> rfl

end StepLemmas

/-! ## Helper lemmas about the whole loop -/

section RunLemmas

variable {B : Type} {cfg : EpochCfg B} {obs : ℕ → IterObs} {startIt : ℕ}

theorem runSteps_isSome (h : cfg.loader ≠ []) (idxs : List ℕ) (s : EpochState B) :
    (runSteps cfg startIt obs idxs s).isSome := by
  induction idxs generalizing s with
  | nil => rfl
  | cons i rest ih =>
    simp only [runSteps]
    cases hst : epochStep cfg startIt (obs i) i s with
    | none =>
      have hsome := @epochStep_isSome B cfg (obs i) startIt i s h
      rw [hst] at hsome
      simp at hsome
    | some s2 =>
      exact ih s2

theorem runSteps_accIter {s s' : EpochState B} (idxs : List ℕ)
    (h : runSteps cfg startIt obs idxs s = some s') :
    s'.accIter = s.accIter + idxs.length := by
  induction idxs generalizing s with
  | nil => rw [← Option.some.inj h]; rfl
  | cons i rest ih =>
    simp only [runSteps] at h
    cases hst : epochStep cfg startIt (obs i) i s with
    | none => rw [hst] at h; simp at h
    | some s2 =>
      rw [hst] at h
      have h2 := ih (s := s2) h
      rw [h2, epochStep_accIter hst]
      simp only [List.length_cons]
      omega

theorem runSteps_logs_length {s s' : EpochState B} (idxs : List ℕ)
    (h : runSteps cfg startIt obs idxs s = some s') :
    s'.logs.length = s.logs.length + countEmits cfg startIt s.accIter idxs := by
  induction idxs generalizing s with
  | nil => rw [← Option.some.inj h]; simp [countEmits]
  | cons i rest ih =>
    simp only [runSteps] at h
    cases hst : epochStep cfg startIt (obs i) i s with
    | none => rw [hst] at h; simp at h
    | some s2 =>
      rw [hst] at h
      have h2 := ih (s := s2) h
      rw [h2, epochStep_logs_length hst, countEmits, epochStep_accIter hst]
      omega

theorem runSteps_goodLogs {s s' : EpochState B} (idxs : List ℕ)
    (h : runSteps cfg startIt obs idxs s = some s')
    (hs : ∀ r ∈ s.logs, goodLog cfg r) : ∀ r ∈ s'.logs, goodLog cfg r := by
  induction idxs generalizing s with
  | nil => rw [← Option.some.inj h]; exact hs
  | cons i rest ih =>
    simp only [runSteps] at h
    cases hst : epochStep cfg startIt (obs i) i s with
    | none => rw [hst] at h; simp at h
    | some s2 =>
      rw [hst] at h
      exact ih (s := s2) h (epochStep_goodLogs hst hs)

/-- The trigger `elapsed // interval >= 1` fires iff a full interval has elapsed. -/
theorem ckpt_trigger_iff (I e : ℚ) (hI : 0 < I) :
    ((1 : ℤ) ≤ ⌊e / I⌋) ↔ I ≤ e := by
  rw [Int.le_floor]
  push_cast
  exact one_le_div hI

/-- The trigger `elapsed // interval >= 2` is impossible below two intervals. -/
theorem ckpt_no_second (I e : ℚ) (hI : 0 < I) (hb : e < 2 * I) :
    ¬ ((2 : ℤ) ≤ ⌊e / I⌋) := by
  rw [Int.le_floor]
  push_cast
  rw [le_div_iff₀ hI]
  intro hcon
  linarith

theorem runSteps_saves_stable {s s' : EpochState B} (idxs : List ℕ)
    (hr : cfg.rank = 0) (hI : 0 < cfg.ckptSaveTimeInterval)
    (hcnt : s.ckptSaveCnt = 2)
    (hbound : ∀ i ∈ idxs, (obs i).pbarElapsedAtCkpt < 2 * cfg.ckptSaveTimeInterval)
    (h : runSteps cfg startIt obs idxs s = some s') :
    s'.latestCkptSaves.length = s.latestCkptSaves.length ∧ s'.ckptSaveCnt = 2 := by
  induction idxs generalizing s with
  | nil => rw [← Option.some.inj h]; exact ⟨rfl, hcnt⟩
  | cons i rest ih =>
    simp only [runSteps] at h
    cases hst : epochStep cfg startIt (obs i) i s with
    | none => rw [hst] at h; simp at h
    | some s2 =>
      rw [hst] at h
      have hspec := epochStep_saves hst hr
      rw [if_neg (by
        rw [hcnt]
        push_cast
        exact ckpt_no_second _ _ hI (hbound i (List.mem_cons_self i rest)))] at hspec
      simp only [Prod.mk.injEq] at hspec
      obtain ⟨hc2, hl2⟩ := hspec
      have hrest := ih (s := s2) (by rw [hc2, hcnt])
        (fun j hj => hbound j (List.mem_cons_of_mem _ hj)) h
      exact ⟨by rw [hrest.1, hl2], hrest.2⟩

theorem runSteps_saves_pending {s s' : EpochState B} (idxs : List ℕ)
    (hr : cfg.rank = 0) (hI : 0 < cfg.ckptSaveTimeInterval)
    (hcnt : s.ckptSaveCnt = 1)
    (hbound : ∀ i ∈ idxs, (obs i).pbarElapsedAtCkpt < 2 * cfg.ckptSaveTimeInterval)
    (h : runSteps cfg startIt obs idxs s = some s') :
    s'.latestCkptSaves.length =
      s.latestCkptSaves.length +
        (if ∃ i ∈ idxs, cfg.ckptSaveTimeInterval ≤ (obs i).pbarElapsedAtCkpt
         then 1 else 0) := by
  induction idxs generalizing s with
  | nil => rw [← Option.some.inj h]; simp
  | cons i rest ih =>
    simp only [runSteps] at h
    cases hst : epochStep cfg startIt (obs i) i s with
    | none => rw [hst] at h; simp at h
    | some s2 =>
      rw [hst] at h
      have hspec := epochStep_saves hst hr
      by_cases htr : cfg.ckptSaveTimeInterval ≤ (obs i).pbarElapsedAtCkpt
      · rw [if_pos (by
          rw [hcnt]
          push_cast
          exact (ckpt_trigger_iff _ _ hI).mpr htr)] at hspec
        simp only [Prod.mk.injEq] at hspec
        obtain ⟨hc2, hl2⟩ := hspec
        have hrest := runSteps_saves_stable rest hr hI (by rw [hc2, hcnt])
          (fun j hj => hbound j (List.mem_cons_of_mem _ hj)) h
        rw [hrest.1, hl2, if_pos ⟨i, List.mem_cons_self i rest, htr⟩]
      · rw [if_neg (by
          rw [hcnt]
          push_cast
          exact fun hcon => htr ((ckpt_trigger_iff _ _ hI).mp hcon))] at hspec
        simp only [Prod.mk.injEq] at hspec
        obtain ⟨hc2, hl2⟩ := hspec
        have hrest := ih (s := s2) (by rw [hc2, hcnt])
          (fun j hj => hbound j (List.mem_cons_of_mem _ hj)) h
        rw [hrest, hl2]
        congr 1
        have hiff : (∃ j ∈ i :: rest, cfg.ckptSaveTimeInterval ≤ (obs j).pbarElapsedAtCkpt)
            ↔ (∃ j ∈ rest, cfg.ckptSaveTimeInterval ≤ (obs j).pbarElapsedAtCkpt) := by
          simp only [List.mem_cons]
          constructor
          · rintro ⟨j, hj | hj, hje⟩
            · exact absurd (hj ▸ hje) htr
            · exact ⟨j, hj, hje⟩
          · rintro ⟨j, hj, hje⟩
            exact ⟨j, Or.inr hj, hje⟩
        rw [if_congr hiff rfl rfl]

/-- Over consecutive iteration indices starting in sync with the counter,
the number of emissions is a `countP` of the per-index emission predicate. -/
theorem countEmits_range' (cfg : EpochCfg B) (startIt : ℕ) :
    ∀ n a, countEmits cfg startIt a (List.range' a n) =
      (List.range' a n).countP (fun i => stepEmitsB cfg startIt (i + 1) i) := by
  intro n
  induction n with
  | zero => intro a; rfl
  | succ n ih =>
    intro a
    rw [List.range'_succ, countEmits, ih (a + 1), List.countP_cons]
    omega

/-- In verbose mode with `logger_iter_interval = 50` and an epoch of at least
50 iterations, exactly one of the first 50 iterations (counter running
1..50 from 0, `start_it = 0`) satisfies the emission condition: the one with
`accumulated_iter = 50`. -/
theorem countP_emit_fifty (cfg : EpochCfg B)
    (hrank : cfg.rank = 0) (hlog : cfg.useLoggerToRecord = true)
    (hint : cfg.loggerIterInterval = 50) (htot : 50 ≤ cfg.totalIt) :
    (List.range' 0 50).countP (fun i => stepEmitsB cfg 0 (i + 1) i) = 1 := by
  have h50 : List.range' 0 50 = List.range' 0 49 ++ [0 + 1 * 49] :=
    List.range'_concat 0 49
  rw [h50, List.countP_append]
  have hz : (List.range' 0 49).countP (fun i => stepEmitsB cfg 0 (i + 1) i) = 0 := by
    rw [List.countP_eq_zero]
    intro a ha
    rw [List.mem_range'] at ha
    obtain ⟨j, hj, rfl⟩ := ha
    simp only [stepEmitsB, emitCond, hrank, hlog, hint, Bool.and_eq_true,
      Bool.or_eq_true, beq_iff_eq, bne_iff_ne]
    rintro ⟨-, h⟩
    rcases h with ⟨h1, h2⟩ | h3
    · omega
    · omega
  rw [hz]
  have hone : (fun i => stepEmitsB cfg 0 (i + 1) i) (0 + 1 * 49) = true := by
    simp only [stepEmitsB, emitCond, hrank, hlog, hint]
    norm_num
  simp [hone]

/-- The value returned by `train_one_epoch` is the incoming
`accumulated_iter` plus the number of loop iterations executed. -/
theorem train_one_epoch_fst {B : Type} (cfg : EpochCfg B) (obs : ℕ → IterObs)
    (accIter0 : ℕ) (dlIter0 : List B) :
    (train_one_epoch cfg obs accIter0 dlIter0).map Prod.fst =
      (train_one_epoch cfg obs accIter0 dlIter0).map
        (fun _ => accIter0 + (epochIterIdxs cfg.totalIt (accIter0 % cfg.totalIt)).length) := by
  simp only [train_one_epoch]
  by_cases h0 : cfg.totalIt = 0
  · rw [if_pos h0]; rfl
  · rw [if_neg h0]
    generalize (if cfg.totalIt = cfg.loader.length then cfg.loader else dlIter0) = dl
    cases hrun : runSteps cfg (accIter0 % cfg.totalIt) obs
        (epochIterIdxs cfg.totalIt (accIter0 % cfg.totalIt))
        (initState accIter0 dl) with
    | none => rfl
    | some s' =>
      have hacc := runSteps_accIter _ hrun
      simp only [Option.map_some']
      rw [hacc]
      rfl

/-- With a nonempty loader and a nonzero epoch length, `train_one_epoch`
always completes normally. -/
theorem train_one_epoch_isSome {B : Type} (cfg : EpochCfg B) (obs : ℕ → IterObs)
    (accIter0 : ℕ) (dlIter0 : List B)
    (hload : cfg.loader ≠ []) (h0 : cfg.totalIt ≠ 0) :
    (train_one_epoch cfg obs accIter0 dlIter0).isSome = true := by
  simp only [train_one_epoch]
  rw [if_neg h0]
  generalize (if cfg.totalIt = cfg.loader.length then cfg.loader else dlIter0) = dl
  cases hrun : runSteps cfg (accIter0 % cfg.totalIt) obs
      (epochIterIdxs cfg.totalIt (accIter0 % cfg.totalIt))
      (initState accIter0 dl) with
  | none =>
    have := @runSteps_isSome B cfg obs (accIter0 % cfg.totalIt) hload
      (epochIterIdxs cfg.totalIt (accIter0 % cfg.totalIt)) (initState accIter0 dl)
    rw [hrun] at this
    simp at this
  | some s' => rfl

end RunLemmas

/-! ## Helper lemmas about the rolling meters -/

theorem foldl_update_sum (vs : List ℚ) :
    ∀ m : AverageMeter, (vs.foldl AverageMeter.update m).sum = m.sum + vs.sum := by
  induction vs with
  | nil => intro m; simp
  | cons v rest ih =>
    intro m
    rw [List.foldl_cons, ih, List.sum_cons]
    simp only [AverageMeter.update]
    ring

theorem foldl_update_count (vs : List ℚ) :
    ∀ m : AverageMeter, (vs.foldl AverageMeter.update m).count = m.count + vs.length := by
  induction vs with
  | nil => intro m; simp
  | cons v rest ih =>
    intro m
    rw [List.foldl_cons, ih, List.length_cons]
    simp only [AverageMeter.update]
    omega

/-- A meter freshly reset and then updated with the values `vs` shows as its
average exactly the arithmetic mean of `vs`. -/
theorem avg_eq_mean (vs : List ℚ) (hne : vs ≠ []) :
    (vs.foldl AverageMeter.update AverageMeter.empty).avg =
      vs.sum / (vs.length : ℚ) := by
  have hc := foldl_update_count vs AverageMeter.empty
  have hs := foldl_update_sum vs AverageMeter.empty
  have hlen : vs.length ≠ 0 := fun h => hne (List.length_eq_zero.mp h)
  rw [AverageMeter.avg, hc, hs]
  have hcount : (AverageMeter.empty.count + vs.length) ≠ 0 := by
    simp only [AverageMeter.empty]
    omega
  rw [if_neg hcount]
  simp [AverageMeter.empty]

/-! ## Concrete scenarios used by the witnesses -/

/-- A fixed per-iteration observation with unit loss/timings and zero elapsed
wall-clock. -/
def witObs : IterObs :=
  { loss := 1, hasCenterHeadLosses := false, hmLoss := 0, locLoss := 0,
    hasRcnnLosses := false, rcnnLossCls := 0, rcnnLossReg := 0,
    avgDataTime := 1, avgForwardTime := 1, avgBatchTime := 1,
    pbarElapsedAtLog := 0, pbarElapsedAtCkpt := 0, tbarElapsed := 0 }

/-- The constant observation stream. -/
def witObsF : ℕ → IterObs := fun _ => witObs

/-- A small verbose-mode configuration. -/
def witCfg3 : EpochCfg ℕ :=
  { loader := [5], totalIt := 2, rank := 0, useLoggerToRecord := true,
    loggerIterInterval := 50, curEpoch := 0, totalEpochs := 1,
    ckptSaveTimeInterval := 300 }

/-- A non-lead-worker configuration with a 4-iteration epoch. -/
def witCfg10 : EpochCfg ℕ :=
  { loader := [1, 2, 3], totalIt := 4, rank := 1, useLoggerToRecord := false,
    loggerIterInterval := 50, curEpoch := 0, totalEpochs := 2,
    ckptSaveTimeInterval := 300 }

/-- The claim C7 scenario: verbose mode, `logger_iter_interval = 50`, a
50-iteration epoch. -/
def witCfg7 : EpochCfg Unit :=
  { loader := [()], totalIt := 50, rank := 0, useLoggerToRecord := true,
    loggerIterInterval := 50, curEpoch := 0, totalEpochs := 3,
    ckptSaveTimeInterval := 300 }

/-- The claim C8 scenario: lead worker, `ckpt_save_time_interval = 300`. -/
def witCfg8 : EpochCfg Unit :=
  { loader := [()], totalIt := 10, rank := 0, useLoggerToRecord := true,
    loggerIterInterval := 50, curEpoch := 0, totalEpochs := 1,
    ckptSaveTimeInterval := 300 }

/-- Elapsed wall-clock readings 100s, 301s, 599s over three iterations: an
epoch running just past one 300s interval but short of two. -/
def witObs8 : ℕ → IterObs := fun i =>
  { witObs with pbarElapsedAtCkpt := if i = 0 then 100 else if i = 1 then 301 else 599 }

/-! ## The claims -/

/-- C1: for every sequence of batches, the global step counter
(`accumulated_iter`) increases by exactly 1 per successful training iteration
(line 91) — in particular it never decreases — and the value returned by
`train_one_epoch` (line 178) equals the input counter plus the number of
iterations executed (one per element of `range(start_it,
total_it_each_epoch)`). -/
theorem global_step_exact_increment {B : Type} (cfg : EpochCfg B)
    (startIt : ℕ) (o : IterObs) (i : ℕ) (s : EpochState B)
    (obs : ℕ → IterObs) (accIter0 : ℕ) (dlIter0 : List B) :
    (epochStep cfg startIt o i s).map EpochState.accIter =
      (epochStep cfg startIt o i s).map (fun _ => s.accIter + 1) ∧
    (train_one_epoch cfg obs accIter0 dlIter0).map Prod.fst =
      (train_one_epoch cfg obs accIter0 dlIter0).map
        (fun _ => accIter0 + (epochIterIdxs cfg.totalIt (accIter0 % cfg.totalIt)).length) := by
  constructor
  · cases hst : epochStep cfg startIt o i s with
    | none => rfl
    | some s' =>
      simp only [Option.map_some']
      rw [epochStep_accIter hst]
  · exact train_one_epoch_fst cfg obs accIter0 dlIter0

/-- C3: with a nonempty dataloader (and a nonzero epoch length, without which
line 30 raises `ZeroDivisionError`), iterator exhaustion mid-epoch never
terminates the epoch: `nextBatch` on an exhausted iterator reinstantiates it
and yields the fresh iterator's first batch (flagging the `'new iters'`
restart), every loop iteration succeeds, and the whole epoch driver completes
normally, running all its configured iterations. -/
theorem dataloader_exhaustion_wraparound {B : Type} (cfg : EpochCfg B)
    (hload : cfg.loader ≠ []) (htot : 0 < cfg.totalIt) :
    (∀ b rest, cfg.loader = b :: rest → nextBatch cfg.loader [] = some (b, rest, true)) ∧
    (∀ startIt o i s, (epochStep cfg startIt o i s : Option (EpochState B)).isSome = true) ∧
    (∀ obs accIter0 dlIter0,
      (train_one_epoch cfg obs accIter0 dlIter0).isSome = true) := by
  refine ⟨?_, ?_, ?_⟩
  · intro b rest hl
    rw [hl]
    rfl
  · intro startIt o i s
    exact epochStep_isSome hload
  · intro obs accIter0 dlIter0
    exact train_one_epoch_isSome cfg obs accIter0 dlIter0 hload (Nat.pos_iff_ne_zero.mp htot)

/-- Witness for C3 at a concrete configuration: a singleton loader `[5]`,
epoch length 2. -/
theorem dataloader_exhaustion_wraparound_witness :
    nextBatch witCfg3.loader ([] : List ℕ) = some (5, [], true) ∧
    (epochStep witCfg3 0 witObs 0 (initState 0 ([] : List ℕ))).isSome = true ∧
    (train_one_epoch witCfg3 witObsF 0 ([] : List ℕ)).isSome = true := by
  have h := dataloader_exhaustion_wraparound witCfg3 (by decide) (by decide)
  exact ⟨h.1 5 [] rfl, h.2.1 0 witObs 0 (initState 0 []), h.2.2 witObsF 0 []⟩

/-- C10: the iteration loop starts at `start_it = accumulated_iter %
total_it_each_epoch` (lines 30, 52), so the driver executes exactly
`total_it_each_epoch - accumulated_iter % total_it_each_epoch` iterations,
a full epoch exactly when the incoming counter is a multiple of the per-epoch
iteration count, and returns the counter advanced by that many
iterations. -/
theorem start_it_resume_loop {B : Type} (cfg : EpochCfg B)
    (obs : ℕ → IterObs) (accIter0 : ℕ) (dlIter0 : List B)
    (h : 0 < cfg.totalIt) :
    (epochIterIdxs cfg.totalIt (accIter0 % cfg.totalIt)).head? =
      some (accIter0 % cfg.totalIt) ∧
    (epochIterIdxs cfg.totalIt (accIter0 % cfg.totalIt)).length =
      cfg.totalIt - accIter0 % cfg.totalIt ∧
    ((epochIterIdxs cfg.totalIt (accIter0 % cfg.totalIt)).length = cfg.totalIt ↔
      accIter0 % cfg.totalIt = 0) ∧
    (train_one_epoch cfg obs accIter0 dlIter0).map Prod.fst =
      (train_one_epoch cfg obs accIter0 dlIter0).map
        (fun _ => accIter0 + (cfg.totalIt - accIter0 % cfg.totalIt)) := by
  have hmod : accIter0 % cfg.totalIt < cfg.totalIt := Nat.mod_lt _ h
  have hlen : (epochIterIdxs cfg.totalIt (accIter0 % cfg.totalIt)).length =
      cfg.totalIt - accIter0 % cfg.totalIt := by
    simp [epochIterIdxs]
  refine ⟨?_, hlen, ?_, ?_⟩
  · unfold epochIterIdxs
    obtain ⟨k, hk⟩ : ∃ k, cfg.totalIt - accIter0 % cfg.totalIt = k + 1 :=
      ⟨cfg.totalIt - accIter0 % cfg.totalIt - 1, by omega⟩
    rw [hk, List.range'_succ]
    rfl
  · rw [hlen]
    omega
  · have hfst := train_one_epoch_fst cfg obs accIter0 dlIter0
    rw [hfst]
    simp only [hlen]

/-- Witness for C10: epoch length 4, incoming counter 6, so the loop covers
indices 2, 3 only. -/
theorem start_it_resume_loop_witness :
    0 < witCfg10.totalIt ∧
    ((epochIterIdxs witCfg10.totalIt (6 % witCfg10.totalIt)).head? =
        some (6 % witCfg10.totalIt) ∧
      (epochIterIdxs witCfg10.totalIt (6 % witCfg10.totalIt)).length =
        witCfg10.totalIt - 6 % witCfg10.totalIt ∧
      ((epochIterIdxs witCfg10.totalIt (6 % witCfg10.totalIt)).length = witCfg10.totalIt ↔
        6 % witCfg10.totalIt = 0) ∧
      (train_one_epoch witCfg10 witObsF 6 ([] : List ℕ)).map Prod.fst =
        (train_one_epoch witCfg10 witObsF 6 ([] : List ℕ)).map
          (fun _ => 6 + (witCfg10.totalIt - 6 % witCfg10.totalIt))) :=
  ⟨by decide, start_it_resume_loop witCfg10 witObsF 6 [] (by decide)⟩

/-- C7: in verbose-logger mode with `logger_iter_interval = 50` on the lead
worker, a run from counter 0 (`start_it = 0`) through the 50 iterations that
bring `accumulated_iter` to 50, in an epoch of at least 50 iterations, emits
exactly one aggregated log line; and every emitted line's whole-run
remaining-time estimate equals
`second_each_iter * ((total_epochs - cur_epoch) * total_it_each_epoch -
cur_it)` (line 135). -/
theorem one_log_line_at_fifty {B : Type} (cfg : EpochCfg B) (obs : ℕ → IterObs)
    (dl0 : List B) (s' : EpochState B)
    (hrank : cfg.rank = 0) (hlog : cfg.useLoggerToRecord = true)
    (hint : cfg.loggerIterInterval = 50) (htot : 50 ≤ cfg.totalIt)
    (hrun : runSteps cfg 0 obs (List.range' 0 50) (initState 0 dl0) = some s') :
    s'.logs.length = 1 ∧
    ∀ r ∈ s'.logs, r.remainingSecondAll =
      r.secondEachIter *
        (((cfg.totalEpochs : ℚ) - (cfg.curEpoch : ℚ)) * (cfg.totalIt : ℚ) -
          (r.curIt : ℚ)) := by
  constructor
  · have hl := runSteps_logs_length _ hrun
    rw [hl]
    show 0 + countEmits cfg 0 0 (List.range' 0 50) = 1
    rw [countEmits_range' cfg 0 50 0, countP_emit_fifty cfg hrank hlog hint htot]
  · intro r hr
    exact runSteps_goodLogs _ hrun
      (by intro r' hr'; exact absurd hr' (List.not_mem_nil r')) r hr

/-- Witness for C7: the scenario run concretely (constant observations, a
singleton loader) emits exactly one log line. -/
theorem one_log_line_at_fifty_witness :
    (runSteps witCfg7 0 witObsF (List.range' 0 50)
        (initState 0 ([] : List Unit))).map (fun s => s.logs.length) = some 1 := by
  have hs : (runSteps witCfg7 0 witObsF (List.range' 0 50)
      (initState 0 ([] : List Unit))).isSome = true :=
    runSteps_isSome (by decide) _ _
  obtain ⟨s', hrun⟩ := Option.isSome_iff_exists.mp hs
  have h := one_log_line_at_fifty witCfg7 witObsF [] s' rfl rfl rfl (by decide) hrun
  rw [hrun, Option.map_some', h.1]

/-- C8: on the lead worker, the `latest_model` slot is overwritten exactly
once per elapsed `ckpt_save_time_interval` of wall-clock time: over any epoch
whose per-iteration elapsed readings stay below two intervals but reach one
interval at some iteration, exactly one latest-slot checkpoint is written —
in particular an epoch running 301 seconds with a 300-second interval
produces exactly one overwrite. -/
theorem latest_ckpt_single_overwrite {B : Type} (cfg : EpochCfg B)
    (obs : ℕ → IterObs) (idxs : List ℕ) (startIt accIter0 : ℕ) (dl0 : List B)
    (s' : EpochState B)
    (hrank : cfg.rank = 0) (hI : 0 < cfg.ckptSaveTimeInterval)
    (hbound : ∀ i ∈ idxs,
      (obs i).pbarElapsedAtCkpt < 2 * cfg.ckptSaveTimeInterval)
    (hhit : ∃ i ∈ idxs, cfg.ckptSaveTimeInterval ≤ (obs i).pbarElapsedAtCkpt)
    (hrun : runSteps cfg startIt obs idxs (initState accIter0 dl0) = some s') :
    s'.latestCkptSaves.length = 1 := by
  have h := runSteps_saves_pending idxs hrank hI rfl hbound hrun
  rw [h, if_pos hhit]
  rfl

/-- Witness for C8: three iterations with elapsed readings 100s, 301s, 599s
and a 300s interval produce exactly one `latest_model` overwrite. -/
theorem latest_ckpt_single_overwrite_witness :
    (runSteps witCfg8 0 witObs8 [0, 1, 2]
        (initState 0 ([] : List Unit))).map
      (fun s => s.latestCkptSaves.length) = some 1 := by
  have hs : (runSteps witCfg8 0 witObs8 [0, 1, 2]
      (initState 0 ([] : List Unit))).isSome = true :=
    runSteps_isSome (by decide) _ _
  obtain ⟨s', hrun⟩ := Option.isSome_iff_exists.mp hs
  have h := latest_ckpt_single_overwrite witCfg8 witObs8 [0, 1, 2] 0 0 [] s'
    rfl (by norm_num [witCfg8])
    (by
      intro i hi
      fin_cases hi <;> norm_num [witObs8, witObs, witCfg8])
    ⟨1, by norm_num, by norm_num [witObs8, witObs, witCfg8]⟩ hrun
  rw [hrun, Option.map_some', h]

/-- The claim C6 as stated: immediately after each verbose log emission (an
iteration whose emission condition fired), every rolling meter is reset to
empty. -/
def everyMeterResetClaim : Prop :=
  ∀ (cfg : EpochCfg ℕ) (startIt : ℕ) (o : IterObs) (i : ℕ)
    (s s' : EpochState ℕ),
    epochStep cfg startIt o i s = some s' →
    stepEmitsB cfg startIt (s.accIter + 1) i = true →
    allMetersEmpty s'

/-- The state after one emitting iteration of the `witCfg3` scenario. -/
def cexC6State : EpochState ℕ :=
  (epochStep witCfg3 0 witObs 1 (initState 1 [5])).get
    (epochStep_isSome (by decide))

/-- C6 counterexample: in the `witCfg3` scenario the iteration with
`cur_it + 1 = total_it_each_epoch` emits a log line, yet the `data_time`
meter (updated this iteration, never reset at lines 149-153) is not empty
afterwards: only the five loss-display meters are reset. -/
theorem every_meter_reset_refuted : ¬ everyMeterResetClaim := by
  intro h
  have hmem : epochStep witCfg3 0 witObs 1 (initState 1 [5]) = some cexC6State :=
    (Option.some_get _).symm
  have hall := h witCfg3 0 witObs 1 (initState 1 [5]) cexC6State hmem (by decide)
  have hcount : cexC6State.dataTime.count = 1 := by
    norm_num [cexC6State, epochStep, nextBatch, updateMeters, maybeEmitLog,
      maybeSaveLatest, initState, emitCond, witCfg3, witObs,
      AverageMeter.update, AverageMeter.reset, AverageMeter.empty]
  rw [hall.1] at hcount
  exact absurd hcount (by decide)

/-- C6 (amended): immediately after each verbose log emission the five
loss-display meters (`loss_disp`, `hm_loss_disp`, `loc_loss_disp`,
`rcnn_cls_loss_disp`, `rcnn_reg_loss_disp`, lines 149-153) are reset to
empty — the three timing meters are not — and a freshly reset meter's
average equals the arithmetic mean of exactly the values recorded since the
reset. -/
theorem loss_meters_reset_after_emission :
    (∀ (B : Type) (cfg : EpochCfg B) (startIt : ℕ) (o : IterObs) (i : ℕ)
        (s s' : EpochState B),
      epochStep cfg startIt o i s = some s' →
      stepEmitsB cfg startIt (s.accIter + 1) i = true →
      s'.lossDisp = AverageMeter.empty ∧ s'.hmLossDisp = AverageMeter.empty ∧
      s'.locLossDisp = AverageMeter.empty ∧
      s'.rcnnClsLossDisp = AverageMeter.empty ∧
      s'.rcnnRegLossDisp = AverageMeter.empty) ∧
    (∀ vs : List ℚ, vs ≠ [] →
      (vs.foldl AverageMeter.update AverageMeter.empty).avg =
        vs.sum / (vs.length : ℚ)) :=
  ⟨fun _ _ _ _ _ _ _ h he => epochStep_lossMeters_of_emit h he,
   fun vs h => avg_eq_mean vs h⟩

/-- Witness for the amended C6, at the `witCfg3` emitting iteration and the
value list `[1, 2]`. -/
theorem loss_meters_reset_after_emission_witness :
    (cexC6State.lossDisp = AverageMeter.empty ∧
      cexC6State.hmLossDisp = AverageMeter.empty ∧
      cexC6State.locLossDisp = AverageMeter.empty ∧
      cexC6State.rcnnClsLossDisp = AverageMeter.empty ∧
      cexC6State.rcnnRegLossDisp = AverageMeter.empty) ∧
    (([1, 2] : List ℚ).foldl AverageMeter.update AverageMeter.empty).avg =
      ([1, 2] : List ℚ).sum / (([1, 2] : List ℚ).length : ℚ) := by
  have h := loss_meters_reset_after_emission
  exact ⟨h.1 ℕ witCfg3 0 witObs 1 (initState 1 [5]) cexC6State
      (Option.some_get _).symm (by decide),
    h.2 [1, 2] (by simp)⟩

/-- One end-of-epoch save keeps the number of epoch-numbered checkpoints at
or below the retention limit. -/
theorem endOfEpochSave_length_le (rank interval N : ℕ) (hN : 1 ≤ N)
    (files : List CkptFile) (e t : ℕ) (hle : files.length ≤ N) :
    (endOfEpochSave rank interval N files e t).length ≤ N := by
  simp only [endOfEpochSave]
  split_ifs with hc hfull
  · rw [List.length_append, List.length_drop, List.length_insertionSort]
    simp only [List.length_singleton]
    omega
  · rw [List.length_append, List.length_insertionSort] at *
    simp only [List.length_singleton]
    omega
  · exact hle

/-- C2: with `max_ckpt_save_num = N ≥ 1` (and a nonzero
`ckpt_save_interval`, without which line 255 raises `ZeroDivisionError`),
after any sequence of epoch-boundary saves starting from an empty directory
the number of epoch-numbered checkpoint files never exceeds `N`; the
save/prune runs only when `(epoch+1) % ckpt_save_interval == 0` on the lead
worker (`rank = 0`), leaving the files untouched otherwise; and when pruning
happens the deleted files are exactly the oldest by modification time (every
file dropped from the front of the mtime-sorted list is at most as recent as
every kept one). -/
theorem ckpt_retention_bound (rank interval N : ℕ) (hN : 1 ≤ N)
    (_hI : 0 < interval) (events : List (ℕ × ℕ)) :
    (runEpochSaves rank interval N events).length ≤ N ∧
    (∀ (files : List CkptFile) (e t : ℕ), ¬((e + 1) % interval = 0 ∧ rank = 0) →
      endOfEpochSave rank interval N files e t = files) ∧
    (∀ files : List CkptFile, N ≤ files.length →
      ∀ x ∈ (List.insertionSort mtimeLE files).take (files.length - N + 1),
      ∀ y ∈ (List.insertionSort mtimeLE files).drop (files.length - N + 1),
        x.mtime ≤ y.mtime) := by
  refine ⟨?_, ?_, ?_⟩
  · have haux : ∀ (evs : List (ℕ × ℕ)) (fs : List CkptFile), fs.length ≤ N →
        (evs.foldl (fun fs ev => endOfEpochSave rank interval N fs ev.1 ev.2)
          fs).length ≤ N := by
      intro evs
      induction evs with
      | nil => intro fs h; exact h
      | cons ev rest ih =>
        intro fs h
        exact ih _ (endOfEpochSave_length_le rank interval N hN fs ev.1 ev.2 h)
    exact haux events [] (by simp)
  · intro files e t hnot
    simp only [endOfEpochSave]
    rw [if_neg hnot]
  · intro files hNle x hx y hy
    have hsorted : List.Sorted mtimeLE (List.insertionSort mtimeLE files) :=
      List.sorted_insertionSort mtimeLE files
    rw [← List.take_append_drop (files.length - N + 1)
      (List.insertionSort mtimeLE files)] at hsorted
    exact (List.pairwise_append.mp hsorted).2.2 x hx y hy

/-- Witness for C2: `N = 2`, `interval = 1`, lead worker, three epoch
boundaries. -/
theorem ckpt_retention_bound_witness :
    1 ≤ 2 ∧ 0 < 1 ∧
    (runEpochSaves 0 1 2 [(0, 10), (1, 20), (2, 30)]).length ≤ 2 ∧
    runEpochSaves 0 1 2 [(0, 10), (1, 20), (2, 30)] = [⟨2, 20⟩, ⟨3, 30⟩] := by
  have h := ckpt_retention_bound 0 1 2 (by decide) (by decide) [(0, 10), (1, 20), (2, 30)]
  exact ⟨by decide, by decide, h.1, by decide⟩

/-- Once the one-shot flag is set, the hook step is the identity. -/
theorem disableAugHookStep_of_flag (hook : Option HookCfg) (T e : ℕ)
    (s : RunAugState) (h : s.augmentDisableFlag = true) :
    disableAugHookStep hook T e s = s := by
  cases hook with
  | none => rfl
  | some hk =>
    simp only [disableAugHookStep]
    rw [if_neg]
    rintro ⟨-, hflag⟩
    rw [h] at hflag
    exact Bool.noConfusion hflag

/-- Folding the hook over any later epochs from a flag-set state changes
nothing. -/
theorem foldl_hookStep_of_flag (hook : Option HookCfg) (T : ℕ) (es : List ℕ) :
    ∀ s : RunAugState, s.augmentDisableFlag = true →
      es.foldl (fun s e => disableAugHookStep hook T e s) s = s := by
  induction es with
  | nil => intro s _; rfl
  | cons e rest ih =>
    intro s h
    rw [List.foldl_cons, disableAugHookStep_of_flag hook T e s h, ih s h]

/-- Closed form of the hook's trace over consecutive epochs starting with
the flag down. -/
theorem runAugHook_closed_form (hk : HookCfg) (T : ℕ) :
    ∀ (n a : ℕ) (l0 : List ℕ),
      ((List.range' a n).foldl (fun s e => disableAugHookStep (some hk) T e s)
          ⟨false, l0⟩).augReplacedAtEpochs =
        l0 ++ (if 0 < n ∧ T - hk.numLastEpochs < a + n
               then [max a (T - hk.numLastEpochs)] else []) := by
  intro n
  induction n with
  | zero =>
    intro a l0
    simp
  | succ n ih =>
    intro a l0
    rw [List.range'_succ, List.foldl_cons]
    by_cases hc : T - hk.numLastEpochs ≤ a
    · have hstep : disableAugHookStep (some hk) T a ⟨false, l0⟩ =
          ⟨true, l0 ++ [a]⟩ := by
        simp only [disableAugHookStep]
        rw [if_pos]
        exact ⟨hc, trivial⟩
      rw [hstep, foldl_hookStep_of_flag (some hk) T _ _ rfl,
        if_pos ⟨Nat.succ_pos n, by omega⟩, max_eq_left hc]
    · have hstep : disableAugHookStep (some hk) T a ⟨false, l0⟩ = ⟨false, l0⟩ := by
        simp only [disableAugHookStep]
        rw [if_neg]
        rintro ⟨h1, -⟩
        exact hc h1
      rw [hstep, ih (a + 1) l0]
      by_cases hn : 0 < n ∧ T - hk.numLastEpochs < a + 1 + n
      · rw [if_pos hn, if_pos ⟨Nat.succ_pos n, by omega⟩,
          max_eq_right (by omega), max_eq_right (by omega)]
      · rw [if_neg hn, if_neg]
        rintro ⟨-, hlt⟩
        rcases Nat.eq_zero_or_pos n with h0 | hpos
        · subst h0; omega
        · exact hn ⟨hpos, by omega⟩

/-- The hook with no configuration never touches anything. -/
theorem foldl_hookStep_none (T : ℕ) (es : List ℕ) :
    ∀ s : RunAugState, es.foldl (fun s e => disableAugHookStep none T e s) s = s := by
  induction es with
  | nil => intro s; rfl
  | cons e rest ih => intro s; rw [List.foldl_cons]; exact ih s

/-- C9: across a run the disable-augmentation hook replaces the dataloader's
augmentation configuration at most once; a flag-set state is never modified
again (no re-application, no revert); an unconfigured hook does nothing; and
with a configured hook the replacement happens exactly at the first epoch
`cur_epoch` of `range(start_epoch, total_epochs)` satisfying
`(total_epochs - NUM_LAST_EPOCHS) <= cur_epoch` (namely
`max start_epoch (total_epochs - NUM_LAST_EPOCHS)`), when one exists. -/
theorem disable_aug_hook_once (hook : Option HookCfg) (T a : ℕ) :
    (runDisableAugHook hook T a).augReplacedAtEpochs.length ≤ 1 ∧
    (∀ (T' e : ℕ) (s : RunAugState), s.augmentDisableFlag = true →
      disableAugHookStep hook T' e s = s) ∧
    (runDisableAugHook none T a).augReplacedAtEpochs = [] ∧
    (∀ hk : HookCfg, hook = some hk →
      (runDisableAugHook hook T a).augReplacedAtEpochs =
        if a < T ∧ 0 < hk.numLastEpochs
        then [max a (T - hk.numLastEpochs)] else []) := by
  have hnone : (runDisableAugHook none T a).augReplacedAtEpochs = [] := by
    rw [runDisableAugHook, foldl_hookStep_none]
  have hsome : ∀ hk : HookCfg, hook = some hk →
      (runDisableAugHook hook T a).augReplacedAtEpochs =
        if a < T ∧ 0 < hk.numLastEpochs
        then [max a (T - hk.numLastEpochs)] else [] := by
    intro hk hhk
    subst hhk
    rw [runDisableAugHook, runAugHook_closed_form hk T (T - a) a []]
    rw [List.nil_append]
    have hiff : (0 < T - a ∧ T - hk.numLastEpochs < a + (T - a)) ↔
        (a < T ∧ 0 < hk.numLastEpochs) := by omega
    rw [if_congr hiff rfl rfl]
  refine ⟨?_, fun T' e s h => disableAugHookStep_of_flag hook T' e s h, hnone, hsome⟩
  cases hook with
  | none => rw [hnone]; exact Nat.zero_le 1
  | some hk =>
    rw [hsome hk rfl]
    split_ifs
    · rw [List.length_singleton]
    · exact Nat.zero_le 1

/-- Witness for C9: 10 epochs, disable in the last 2, starting at epoch 0:
the hook fires once, at epoch 8, and a flag-set state is left alone. -/
theorem disable_aug_hook_once_witness :
    (runDisableAugHook (some ⟨2⟩) 10 0).augReplacedAtEpochs =
      (if 0 < 10 ∧ 0 < (HookCfg.mk 2).numLastEpochs
       then [max 0 (10 - (HookCfg.mk 2).numLastEpochs)] else []) ∧
    disableAugHookStep (some ⟨2⟩) 10 9 ⟨true, [8]⟩ = ⟨true, [8]⟩ ∧
    (runDisableAugHook (some ⟨2⟩) 10 0).augReplacedAtEpochs = [8] := by
  have h := disable_aug_hook_once (some ⟨2⟩) 10 0
  exact ⟨h.2.2.2 ⟨2⟩ rfl, h.2.1 10 9 ⟨true, [8]⟩ rfl, by decide⟩

/-- C4: a captured checkpoint record's `epoch` and `it` fields equal the
arguments passed to `checkpoint_state`; the optimizer state is present
exactly when an optimizer is given; and for a
`DistributedDataParallel`-wrapped model the stored model state is the inner
module's state dict with every tensor moved to host (CPU) memory. -/
theorem checkpoint_state_fields {σ : Type} (pv : Option String)
    (m : Option TorchModel) (o : Option σ) (e i : ℕ) (sd : StateDict) :
    (checkpoint_state pv m o e i).epoch = e ∧
    (checkpoint_state pv m o e i).it = i ∧
    (checkpoint_state pv m o e i).optimizer_state.isSome = o.isSome ∧
    (checkpoint_state pv (some (TorchModel.ddp sd)) o e i).model_state =
      some (model_state_to_cpu sd) ∧
    allCpu (model_state_to_cpu sd) = true := by
  refine ⟨rfl, rfl, rfl, rfl, ?_⟩
  rw [allCpu, List.all_eq_true]
  intro kv hkv
  obtain ⟨kv0, _, rfl⟩ := List.mem_map.mp hkv
  rfl

/-- The claim C5's reading of the format rule: the legacy (non-zipped)
serialization format is used exactly when the serialization library is old —
below the `'1.4'` threshold the code itself names. -/
def specUsesLegacyFormat (torchVersion : String) : Bool :=
  decide (torchVersion < "1.4")

/-- The claim C5 as stated: `persist` writes to `path + ".pth"` and uses the
legacy format exactly when the library version is old enough to require it,
otherwise the default format. -/
def persistFormatClaim : Prop :=
  ∀ (v : String) (s : CheckpointRecord Unit) (f : String),
    (save_checkpoint v s f).filename = f ++ ".pth" ∧
    (save_checkpoint v s f).legacyFormat = specUsesLegacyFormat v

/-- C5 counterexample: at `torch.__version__ = "2.0"` — a version that is
not old — line 307's test `torch.__version__ >= '1.4'` succeeds, so the code
passes `_use_new_zipfile_serialization=False` (the legacy format), while the
claim prescribes the default format there. -/
theorem persist_format_claim_refuted : ¬ persistFormatClaim := by
  intro h
  have h2 := (h ("2.0") ⟨0, 0, none, none, "none"⟩ ("ckpt")).2
  have hA : ("1.4" : String) ≤ "2.0" := by
    rw [String.le_iff_toList_le]
    decide
  have hB : ¬ (("2.0" : String) < "1.4") := by
    rw [String.lt_iff_toList_lt]
    decide
  simp only [save_checkpoint, specUsesLegacyFormat, decide_eq_true hA,
    decide_eq_false hB] at h2
  exact Bool.noConfusion h2

/-- C5 (amended): `save_checkpoint` writes the record to `path + ".pth"`,
and passes the legacy (non-zipped) serialization flag exactly when the
version string compares `>= '1.4'` — i.e. when the library is new enough to
know the zipfile format — using the library default format otherwise. -/
theorem persist_path_and_format {σ : Type} (v : String)
    (s : CheckpointRecord σ) (f : String) :
    (save_checkpoint v s f).filename = f ++ ".pth" ∧
    ((save_checkpoint v s f).legacyFormat = true ↔ "1.4" ≤ v) := by
  refine ⟨rfl, ?_⟩
  simp [save_checkpoint]

/-- Witness for the amended C5 at `torch.__version__ = "2.0"`. -/
theorem persist_path_and_format_witness :
    (save_checkpoint ("2.0") (⟨3, 7, none, none, "none"⟩ : CheckpointRecord Unit)
        ("model")).filename = "model" ++ ".pth" ∧
    ((save_checkpoint ("2.0") (⟨3, 7, none, none, "none"⟩ : CheckpointRecord Unit)
        ("model")).legacyFormat = true ↔ ("1.4" : String) ≤ "2.0") :=
  persist_path_and_format ("2.0") ⟨3, 7, none, none, "none"⟩ ("model")

end TrainUtils
